import Mathlib

/-!
Verification development for the MIS report computation engine
(`mis_builder/models/mis_builder.py`).

The definitions below are a shallow embedding of the Python source:

* `Value` models the values manipulated by the KPI evaluator
  (numbers, strings, the `AccountingNone` sentinel, Python `None`,
  and opaque external objects such as the ORM registry or builtins).
* `processKpi`, `runPass` and `computeLoop` embed the fixpoint loop of
  `MisReport._compute` (lines 475-627): the per-KPI try/except with its
  four outcomes (success, `ZeroDivisionError`, `NameError`/`ValueError`,
  any other exception), the retry queue, and the two stop conditions.
* The per-KPI evaluation body (account substitution via the AEP, the
  sub-report block, `safe_eval`) is abstracted as `EvalEnv.evalOne`,
  which returns an outcome, the (possibly extended) scope and the set of
  active sub-report ids, exactly the data the surrounding loop consumes.
  A concrete instance for a small expression language is given below
  (`miniEnv`), and the sub-report block is embedded separately
  (`processSubTok`).

`aep.py` and `accounting_none.py` are not part of the sources under
review; the places where their behaviour matters are either kept
abstract (`EvalEnv.hasAccountVar` for `AEP.has_account_var`) or
modelled from the spec (arithmetic over the `AccountingNone` sentinel).
-/

namespace MisBuilder

/-- Values living in the evaluation scope (`localdict`).  `anone` is the
`AccountingNone` sentinel, `pynone` is Python `None`, `ext` stands for an
opaque external object (the ORM registry, builtin functions, query result
structures). -/
inductive Value where
  | num (q : ℤ)
  | vstr (s : String)
  | anone
  | pynone
  | ext (tag : String)
deriving DecidableEq, Repr

/-- The evaluation scope: Python's `localdict`, a mutable mapping from
names to values.  Insertion is modelled by consing, lookup finds the most
recent binding. -/
abbrev Scope := List (String × Value)

/-- Lookup in an association list (first, i.e. most recent, binding wins,
like a Python dict read after successive writes). -/
def lookup? [DecidableEq κ] (k : κ) : List (κ × α) → Option α
  | [] => none
  | (k2, v) :: rest => if k2 = k then some v else lookup? k rest

/-- The keys of a scope / association list. -/
def keys (l : List (String × α)) : List String := l.map Prod.fst

/-- A KPI definition (`mis.report.kpi`): the fields the computation uses.
The expression type is a parameter: the loop only hands it to the
evaluator. -/
structure Kpi (ε : Type) where
  name : String
  expression : ε
deriving DecidableEq

/-- One entry of the dictionary returned by `MisReport._compute`
(the fields the claims are about; `sub_report_ids` is `none` when the
Python code stores `False`, i.e. for an empty id list). -/
structure KpiResult where
  val : Option Value
  val_r : String
  val_c : String
  drilldown : Bool
  sub_report_ids : Option (List Nat)
  period_id : Option Nat
deriving DecidableEq, Repr

/-- The result dictionary `res`, keyed by KPI name.  Assignment conses,
lookup finds the latest assignment. -/
abbrev ResMap := List (String × KpiResult)

/-- Outcome of evaluating one KPI expression, i.e. of the try-block body
of the loop: success, or one of the three exception classes
distinguished by the handlers at lines 569-581 (each carrying the
traceback text). -/
inductive EvalOutcome where
  | ok (v : Value)
  | zeroDiv (tb : String)
  | nameOrValue (tb : String)
  | other (tb : String)
deriving DecidableEq, Repr

/-- What the try-block body produces besides the outcome: the scope (the
sub-report block may have added bindings to `localdict` before the
exception or the final `safe_eval`) and the accumulated
`inherit_active_subreport_ids`. -/
structure EvalStep where
  outcome : EvalOutcome
  scope : Scope
  subs : List Nat

/-- The environment of the fixpoint loop: the abstracted try-block body
(`evalOne`), `kpi.render` (locale formatting is an external
collaborator, so it is a parameter), `AEP.has_account_var` (from
`aep.py`, not under review, hence abstract), a printer for the comment
line `kpi.name + " = " + kpi.expression`, and the opaque `period_id`. -/
structure EvalEnv (ε : Type) where
  evalOne : Scope → Kpi ε → EvalStep
  render : Kpi ε → Value → String
  hasAccountVar : ε → Bool
  exprText : ε → String
  periodId : Option Nat

/-- State threaded through one pass of the loop: `localdict`, the result
dictionary, and `recompute_queue`. -/
structure LoopState (ε : Type) where
  scope : Scope
  res : ResMap
  retry : List (Kpi ε)

/-- Process one KPI of the compute queue: run the try-block body, then
dispatch on the exception class exactly as the handlers at lines 569-583
do, build the result record of lines 594-614 and update `localdict` and
`recompute_queue` (`recompute_queue |= kpi` keeps recordsets duplicate
free, hence the membership test). -/
def processKpi [DecidableEq ε] (env : EvalEnv ε) (st : LoopState ε) (kpi : Kpi ε) :
    LoopState ε :=
  let step := env.evalOne st.scope kpi
  let baseComment := kpi.name ++ " = " ++ env.exprText kpi.expression
  match step.outcome with
  | .ok v =>
      { scope := (kpi.name, v) :: step.scope
        res := (kpi.name,
          { val := if v = .anone then none else some v
            val_r := env.render kpi v
            val_c := baseComment
            drilldown := step.subs.isEmpty && decide (v ≠ Value.pynone) &&
              env.hasAccountVar kpi.expression
            sub_report_ids := if step.subs.isEmpty then none else some step.subs
            period_id := env.periodId }) :: st.res
        retry := st.retry }
  | .zeroDiv tb =>
      { scope := step.scope
        res := (kpi.name,
          { val := none
            val_r := "#DIV/0"
            val_c := baseComment ++ "\n\n" ++ tb
            drilldown := false
            sub_report_ids := if step.subs.isEmpty then none else some step.subs
            period_id := env.periodId }) :: st.res
        retry := st.retry }
  | .nameOrValue tb =>
      { scope := step.scope
        res := (kpi.name,
          { val := none
            val_r := "#ERR"
            val_c := baseComment ++ "\n\n" ++ tb
            drilldown := false
            sub_report_ids := if step.subs.isEmpty then none else some step.subs
            period_id := env.periodId }) :: st.res
        retry := if kpi ∈ st.retry then st.retry else st.retry ++ [kpi] }
  | .other tb =>
      { scope := step.scope
        res := (kpi.name,
          { val := none
            val_r := "#ERR"
            val_c := baseComment ++ "\n\n" ++ tb
            drilldown := false
            sub_report_ids := if step.subs.isEmpty then none else some step.subs
            period_id := env.periodId }) :: st.res
        retry := st.retry }

/-- One full pass of the `while True` loop: process every KPI of the
compute queue in order, starting with an empty `recompute_queue`. -/
def runPass [DecidableEq ε] (env : EvalEnv ε) (scope : Scope) (res : ResMap)
    (queue : List (Kpi ε)) : LoopState ε :=
  queue.foldl (processKpi env) ⟨scope, res, []⟩

theorem processKpi_retry_le [DecidableEq ε] (env : EvalEnv ε) (st : LoopState ε)
    (kpi : Kpi ε) : (processKpi env st kpi).retry.length ≤ st.retry.length + 1 := by
  unfold processKpi
  cases h : (env.evalOne st.scope kpi).outcome <;> simp only [h] <;>
    first
    | simp
    | (split <;> simp)

theorem foldl_processKpi_retry_le [DecidableEq ε] (env : EvalEnv ε)
    (queue : List (Kpi ε)) (st : LoopState ε) :
    (queue.foldl (processKpi env) st).retry.length ≤ st.retry.length + queue.length := by
  induction queue generalizing st with
  | nil => simp
  | cons k rest ih =>
      have h1 := processKpi_retry_le env st k
      have h2 := ih (processKpi env st k)
      simp only [List.foldl_cons, List.length_cons]
      omega

theorem runPass_retry_le [DecidableEq ε] (env : EvalEnv ε) (scope : Scope)
    (res : ResMap) (queue : List (Kpi ε)) :
    (runPass env scope res queue).retry.length ≤ queue.length := by
  have h := foldl_processKpi_retry_le env queue
    (⟨scope, res, []⟩ : LoopState ε)
  simpa [runPass] using h

/-- The fixpoint loop of `MisReport._compute` (lines 479-627).  After a
full pass: stop if `recompute_queue` is empty; stop if it has the same
length as the queue just processed; otherwise loop on the retry queue.
The third component counts the number of passes performed. -/
def computeLoop [DecidableEq ε] (env : EvalEnv ε) (scope : Scope) (res : ResMap)
    (queue : List (Kpi ε)) : Scope × ResMap × Nat :=
  let st := runPass env scope res queue
  if h1 : st.retry.length = 0 then (st.scope, st.res, 1)
  else if h2 : st.retry.length = queue.length then (st.scope, st.res, 1)
  else
    let out := computeLoop env st.scope st.res st.retry
    (out.1, out.2.1, out.2.2 + 1)
termination_by queue.length
decreasing_by
  unfold st at h1 h2
  have h := runPass_retry_le env scope res queue
  omega

/-! ### A concrete expression language for `safe_eval`

`safe_eval` evaluates Python expression text against `localdict`.  We
embed the arithmetic fragment the claims exercise: literals, variable
references, and the four binary operators.  An unbound name raises
`NameError`, a zero divisor raises `ZeroDivisionError`, operating on a
non-numeric object raises `TypeError` (which falls into the bare
`except` clause of the source, like every exception that is neither
`ZeroDivisionError` nor `NameError`/`ValueError`). -/

/-- Exception classes that evaluation of an embedded expression can
raise. -/
inductive PyErr where
  | nameError
  | zeroDiv
  | typeError
deriving DecidableEq, Repr

/-- Addition on scope values.  Numbers add, strings concatenate.
Modelled from the spec: arithmetic over the `AccountingNone` sentinel
(defined in `accounting_none.py`, which is not among the sources under
review) propagates absence: `absence + x = absence`. -/
def vAdd : Value → Value → Except PyErr Value
  | .num a, .num b => .ok (.num (a + b))
  | .vstr a, .vstr b => .ok (.vstr (a ++ b))
  | .anone, _ => .ok .anone
  | _, .anone => .ok .anone
  | _, _ => .error .typeError

/-- Subtraction on scope values.  Modelled from the spec: absence
propagates through arithmetic. -/
def vSub : Value → Value → Except PyErr Value
  | .num a, .num b => .ok (.num (a - b))
  | .anone, _ => .ok .anone
  | _, .anone => .ok .anone
  | _, _ => .error .typeError

/-- Multiplication on scope values.  Modelled from the spec: absence
propagates through arithmetic. -/
def vMul : Value → Value → Except PyErr Value
  | .num a, .num b => .ok (.num (a * b))
  | .anone, _ => .ok .anone
  | _, .anone => .ok .anone
  | _, _ => .error .typeError

/-- Division on scope values: a zero divisor raises
`ZeroDivisionError`.  Modelled from the spec: absence propagates. -/
def vDiv : Value → Value → Except PyErr Value
  | .num a, .num b => if b = 0 then .error .zeroDiv else .ok (.num (a.fdiv b))
  | .anone, _ => .ok .anone
  | _, .anone => .ok .anone
  | _, _ => .error .typeError

/-- Expressions of the embedded formula language. -/
inductive Expr where
  | const (q : ℤ)
  | var (n : String)
  | add (a b : Expr)
  | sub (a b : Expr)
  | mul (a b : Expr)
  | div (a b : Expr)
deriving DecidableEq, Repr

/-- Evaluate an expression against the scope, propagating the first
exception, like the Python interpreter does. -/
def evalExpr (sc : Scope) : Expr → Except PyErr Value
  | .const q => .ok (.num q)
  | .var n =>
      match lookup? n sc with
      | some v => .ok v
      | none => .error .nameError
  | .add a b => do vAdd (← evalExpr sc a) (← evalExpr sc b)
  | .sub a b => do vSub (← evalExpr sc a) (← evalExpr sc b)
  | .mul a b => do vMul (← evalExpr sc a) (← evalExpr sc b)
  | .div a b => do vDiv (← evalExpr sc a) (← evalExpr sc b)

/-- The text `traceback.format_exc()` would capture (the exact content
is runtime data; only its presence in the comment matters). -/
def pyTraceback : PyErr → String
  | .nameError => "Traceback (most recent call last): NameError"
  | .zeroDiv => "Traceback (most recent call last): ZeroDivisionError"
  | .typeError => "Traceback (most recent call last): TypeError"

/-- Classify the result of `safe_eval` into the outcome consumed by the
exception handlers of `MisReport._compute`. -/
def safeEvalOutcome (sc : Scope) (e : Expr) : EvalOutcome :=
  match evalExpr sc e with
  | .ok v => .ok v
  | .error .nameError => .nameOrValue (pyTraceback .nameError)
  | .error .zeroDiv => .zeroDiv (pyTraceback .zeroDiv)
  | .error .typeError => .other (pyTraceback .typeError)

/-- Print an expression back to formula text (for the diagnostic
comment `kpi.name + " = " + kpi.expression`). -/
def exprToString : Expr → String
  | .const q => toString q
  | .var n => n
  | .add a b => "(" ++ exprToString a ++ " + " ++ exprToString b ++ ")"
  | .sub a b => "(" ++ exprToString a ++ " - " ++ exprToString b ++ ")"
  | .mul a b => "(" ++ exprToString a ++ " * " ++ exprToString b ++ ")"
  | .div a b => "(" ++ exprToString a ++ " / " ++ exprToString b ++ ")"

/-- A simple rendering of values (locale formatting is an external
collaborator; `kpi.render` returns the empty string for `None` and
`AccountingNone`). -/
def simpleRender (v : Value) : String :=
  match v with
  | .num q => toString q
  | .vstr s => s
  | _ => ""

/-- The evaluation environment for formulas of the embedded language
with no account-range tokens and no sub-report references: the
try-block body is just `safe_eval` on the expression, the scope is not
extended by side effects, and `AEP.has_account_var` is `False`. -/
def miniEnv : EvalEnv Expr :=
  { evalOne := fun sc k => ⟨safeEvalOutcome sc k.expression, sc, []⟩
    render := fun _ v => simpleRender v
    hasAccountVar := fun _ => false
    exprText := exprToString
    periodId := none }

/-- The two KPIs of the forward-reference example: `a = b + 1` declared
before `b = 2`. -/
def kpiA : Kpi Expr := ⟨"a", .add (.var "b") (.const 1)⟩

/-- KPI `b = 2` of the forward-reference example. -/
def kpiB : Kpi Expr := ⟨"b", .const 2⟩

/-- The compute queue of the forward-reference example, in template
order. -/
def demoQueue : List (Kpi Expr) := [kpiA, kpiB]

/-- The number of passes of the fixpoint loop is bounded by the size
of the initial compute queue (for a non-empty queue). -/
theorem computeLoop_count_le [DecidableEq ε] (env : EvalEnv ε) :
    ∀ (n : Nat) (queue : List (Kpi ε)), queue.length ≤ n → queue ≠ [] →
      ∀ scope res, (computeLoop env scope res queue).2.2 ≤ queue.length := by
  intro n
  induction n with
  | zero =>
      intro queue hlen hne
      cases queue with
      | nil => exact absurd rfl hne
      | cons a l => simp at hlen
  | succ n ih =>
      intro queue hlen hne scope res
      have hq : 0 < queue.length := List.length_pos.mpr hne
      rw [computeLoop]
      by_cases h1 : (runPass env scope res queue).retry.length = 0
      · rw [dif_pos h1]
        simpa using hq
      · rw [dif_neg h1]
        by_cases h2 : (runPass env scope res queue).retry.length = queue.length
        · rw [dif_pos h2]
          simpa using hq
        · rw [dif_neg h2]
          have hle := runPass_retry_le env scope res queue
          have hlt : (runPass env scope res queue).retry.length < queue.length :=
            lt_of_le_of_ne hle h2
          have hne2 : (runPass env scope res queue).retry ≠ [] := by
            intro hh
            rw [hh] at h1
            exact h1 rfl
          have hrec := ih (runPass env scope res queue).retry (by omega) hne2
            (runPass env scope res queue).scope (runPass env scope res queue).res
          simp only []
          omega

/-- C1: the KPI evaluation fixpoint loop always terminates (the
embedding `computeLoop` is a total function, by well-founded recursion
on the queue length) and performs at most N passes for a template with
N KPIs; after a full pass it stops when the retry queue is empty, stops
when the retry queue's size equals the size of the queue just
processed, and otherwise continues with a strictly smaller compute
queue. -/
theorem c1_fixpoint_bounded_passes [DecidableEq ε] (env : EvalEnv ε)
    (scope : Scope) (res : ResMap) (queue : List (Kpi ε)) (hq : queue ≠ []) :
    (computeLoop env scope res queue).2.2 ≤ queue.length ∧
    ((runPass env scope res queue).retry.length = 0 →
      (computeLoop env scope res queue).2.2 = 1) ∧
    ((runPass env scope res queue).retry.length = queue.length →
      (computeLoop env scope res queue).2.2 = 1) ∧
    ((runPass env scope res queue).retry.length ≠ 0 →
      (runPass env scope res queue).retry.length ≠ queue.length →
      (runPass env scope res queue).retry.length < queue.length ∧
      computeLoop env scope res queue =
        ((computeLoop env (runPass env scope res queue).scope
            (runPass env scope res queue).res (runPass env scope res queue).retry).1,
         (computeLoop env (runPass env scope res queue).scope
            (runPass env scope res queue).res (runPass env scope res queue).retry).2.1,
         (computeLoop env (runPass env scope res queue).scope
            (runPass env scope res queue).res
            (runPass env scope res queue).retry).2.2 + 1)) := by
  refine ⟨computeLoop_count_le env queue.length queue le_rfl hq scope res, ?_, ?_, ?_⟩
  · intro h1
    rw [computeLoop, dif_pos h1]
  · intro h2
    by_cases h1 : (runPass env scope res queue).retry.length = 0
    · rw [computeLoop, dif_pos h1]
    · rw [computeLoop, dif_neg h1, dif_pos h2]
  · intro h1 h2
    refine ⟨lt_of_le_of_ne (runPass_retry_le env scope res queue) h2, ?_⟩
    rw [computeLoop, dif_neg h1, dif_neg h2]

/-- Witness for C1 at the two-KPI forward-reference template. -/
theorem c1_witness :
    (computeLoop miniEnv [] [] demoQueue).2.2 ≤ demoQueue.length :=
  (c1_fixpoint_bounded_passes miniEnv [] [] demoQueue (by decide)).1

theorem runPass_demo_retry : (runPass miniEnv [] [] demoQueue).retry = [kpiA] := by
  decide

theorem runPass_demo2_retry :
    (runPass miniEnv (runPass miniEnv [] [] demoQueue).scope
      (runPass miniEnv [] [] demoQueue).res [kpiA]).retry = [] := by
  decide

theorem demo_loop_eq :
    computeLoop miniEnv [] [] demoQueue =
      ((runPass miniEnv (runPass miniEnv [] [] demoQueue).scope
          (runPass miniEnv [] [] demoQueue).res [kpiA]).scope,
       (runPass miniEnv (runPass miniEnv [] [] demoQueue).scope
          (runPass miniEnv [] [] demoQueue).res [kpiA]).res, 2) := by
  rw [computeLoop, runPass_demo_retry,
    dif_neg (show ¬([kpiA] : List (Kpi Expr)).length = 0 by decide),
    dif_neg (show ¬([kpiA] : List (Kpi Expr)).length = demoQueue.length by decide),
    computeLoop, runPass_demo2_retry,
    dif_pos (show ([] : List (Kpi Expr)).length = 0 from rfl)]

/-- C5: for the template declaring, in order, `a = b + 1` and `b = 2`,
the first pass fails `a` with an undefined name (its record shows
`#ERR`) and enqueues it for retry, binds `b` to 2, and the second pass
resolves `a` to 3; the fixpoint converges in exactly 2 passes with both
KPIs resolved. -/
theorem c5_forward_reference_example :
    (runPass miniEnv [] [] demoQueue).retry = [kpiA] ∧
    (lookup? "a" (runPass miniEnv [] [] demoQueue).res).map KpiResult.val_r =
      some "#ERR" ∧
    lookup? "b" (runPass miniEnv [] [] demoQueue).scope = some (.num 2) ∧
    (computeLoop miniEnv [] [] demoQueue).2.2 = 2 ∧
    (lookup? "a" (computeLoop miniEnv [] [] demoQueue).2.1).map KpiResult.val =
      some (some (.num 3)) ∧
    (lookup? "b" (computeLoop miniEnv [] [] demoQueue).2.1).map KpiResult.val =
      some (some (.num 2)) := by
  rw [demo_loop_eq]
  decide

/-- C2: per-KPI failure policy of the exception handlers at lines
569-583: `ZeroDivisionError` yields value `None` rendered `#DIV/0` and
the KPI is not enqueued for retry; `NameError`/`ValueError` yields
`#ERR`, appends the traceback to the diagnostic comment and enqueues
the KPI into the retry queue; any other exception yields `#ERR` with
the traceback and is not retried. -/
theorem c2_error_policy [DecidableEq ε] (env : EvalEnv ε) (st : LoopState ε)
    (kpi : Kpi ε) :
    (∀ tb, (env.evalOne st.scope kpi).outcome = .zeroDiv tb →
      lookup? kpi.name (processKpi env st kpi).res = some
        { val := none
          val_r := "#DIV/0"
          val_c := kpi.name ++ " = " ++ env.exprText kpi.expression ++ "\n\n" ++ tb
          drilldown := false
          sub_report_ids := if (env.evalOne st.scope kpi).subs.isEmpty then none
                            else some (env.evalOne st.scope kpi).subs
          period_id := env.periodId } ∧
      (processKpi env st kpi).retry = st.retry) ∧
    (∀ tb, (env.evalOne st.scope kpi).outcome = .nameOrValue tb →
      lookup? kpi.name (processKpi env st kpi).res = some
        { val := none
          val_r := "#ERR"
          val_c := kpi.name ++ " = " ++ env.exprText kpi.expression ++ "\n\n" ++ tb
          drilldown := false
          sub_report_ids := if (env.evalOne st.scope kpi).subs.isEmpty then none
                            else some (env.evalOne st.scope kpi).subs
          period_id := env.periodId } ∧
      (processKpi env st kpi).retry =
        (if kpi ∈ st.retry then st.retry else st.retry ++ [kpi]) ∧
      kpi ∈ (processKpi env st kpi).retry) ∧
    (∀ tb, (env.evalOne st.scope kpi).outcome = .other tb →
      lookup? kpi.name (processKpi env st kpi).res = some
        { val := none
          val_r := "#ERR"
          val_c := kpi.name ++ " = " ++ env.exprText kpi.expression ++ "\n\n" ++ tb
          drilldown := false
          sub_report_ids := if (env.evalOne st.scope kpi).subs.isEmpty then none
                            else some (env.evalOne st.scope kpi).subs
          period_id := env.periodId } ∧
      (processKpi env st kpi).retry = st.retry) := by
  refine ⟨?_, ?_, ?_⟩
  · intro tb h
    exact ⟨by simp [processKpi, h, lookup?], by simp [processKpi, h]⟩
  · intro tb h
    refine ⟨by simp [processKpi, h, lookup?], by simp [processKpi, h], ?_⟩
    simp only [processKpi, h]
    by_cases hmem : kpi ∈ st.retry
    · simp [hmem]
    · simp [hmem]
  · intro tb h
    exact ⟨by simp [processKpi, h, lookup?], by simp [processKpi, h]⟩

/-- The division-by-zero example KPI `k = 1 / 0`. -/
def kpiDiv0 : Kpi Expr := ⟨"k", .div (.const 1) (.const 0)⟩

/-- A KPI whose formula references an unbound name. -/
def kpiUndef : Kpi Expr := ⟨"u", .var "x"⟩

/-- A KPI whose formula raises `TypeError` (number plus string). -/
def kpiOther : Kpi Expr := ⟨"t", .add (.const 1) (.var "s")⟩

/-- Witness for C2: the three outcome classes at concrete inputs. -/
theorem c2_witness :
    (lookup? "k" (processKpi miniEnv ⟨[], [], []⟩ kpiDiv0).res = some
      { val := none
        val_r := "#DIV/0"
        val_c := "k = (1 / 0)" ++ "\n\n" ++ pyTraceback .zeroDiv
        drilldown := false
        sub_report_ids := none
        period_id := none } ∧
     (processKpi miniEnv ⟨[], [], []⟩ kpiDiv0).retry = []) ∧
    kpiUndef ∈ (processKpi miniEnv ⟨[], [], []⟩ kpiUndef).retry ∧
    (processKpi miniEnv ⟨[("s", Value.vstr "x")], [], []⟩ kpiOther).retry = [] := by
  refine ⟨?_, ?_, ?_⟩
  · exact (c2_error_policy miniEnv ⟨[], [], []⟩ kpiDiv0).1 (pyTraceback .zeroDiv) rfl
  · exact (((c2_error_policy miniEnv ⟨[], [], []⟩ kpiUndef).2.1
      (pyTraceback .nameError) rfl).2.2)
  · exact ((c2_error_policy miniEnv ⟨[("s", Value.vstr "x")], [], []⟩ kpiOther).2.2
      (pyTraceback .typeError) rfl).2

/-- C6: drill-down eligibility (lines 594-596, `drilldown = (not
inherit_active_subreport_ids and kpi_val is not None and
AEP.has_account_var(kpi.expression))`): the `drilldown` flag of a
result record is false whenever the KPI recorded a sub-report
dependency, false whenever `AEP.has_account_var` is false on its
expression, false whenever the evaluated value is Python `None`, and a
true flag forces no sub-report dependency and an account reference. -/
theorem c6_drilldown_eligibility [DecidableEq ε] (env : EvalEnv ε)
    (st : LoopState ε) (kpi : Kpi ε) :
    ∀ rec, lookup? kpi.name (processKpi env st kpi).res = some rec →
      (rec.sub_report_ids ≠ none → rec.drilldown = false) ∧
      (env.hasAccountVar kpi.expression = false → rec.drilldown = false) ∧
      ((env.evalOne st.scope kpi).outcome = .ok Value.pynone →
        rec.drilldown = false) ∧
      (rec.drilldown = true →
        rec.sub_report_ids = none ∧ env.hasAccountVar kpi.expression = true) := by
  intro rec hrec
  cases ho : (env.evalOne st.scope kpi).outcome with
  | ok v =>
      simp [processKpi, ho, lookup?] at hrec
      subst hrec
      cases hs : (env.evalOne st.scope kpi).subs.isEmpty <;>
        cases ha : env.hasAccountVar kpi.expression <;>
          by_cases hv : v = Value.pynone <;>
            simp_all [List.isEmpty_iff]
  | zeroDiv tb =>
      simp [processKpi, ho, lookup?] at hrec
      subst hrec
      simp
  | nameOrValue tb =>
      simp [processKpi, ho, lookup?] at hrec
      subst hrec
      simp
  | other tb =>
      simp [processKpi, ho, lookup?] at hrec
      subst hrec
      simp

/-- Witness for C6 at a concrete record: `b = 2` has no account
reference, so its record is not drill-down eligible. -/
theorem c6_witness :
    ∃ rec, lookup? "b" (processKpi miniEnv ⟨[], [], []⟩ kpiB).res = some rec ∧
      rec.drilldown = false := by
  refine ⟨_, rfl, ?_⟩
  exact ((c6_drilldown_eligibility miniEnv ⟨[], [], []⟩ kpiB) _ rfl).2.1 rfl

/-- C10: the `val` field of a result record is never the
`AccountingNone` sentinel (line 599): it is `None` when evaluation
produced the sentinel or raised, and the computed value otherwise. -/
theorem c10_val_never_sentinel [DecidableEq ε] (env : EvalEnv ε)
    (st : LoopState ε) (kpi : Kpi ε) :
    ∀ rec, lookup? kpi.name (processKpi env st kpi).res = some rec →
      rec.val ≠ some Value.anone ∧
      (∀ v, (env.evalOne st.scope kpi).outcome = .ok v → v ≠ .anone →
        rec.val = some v) ∧
      ((env.evalOne st.scope kpi).outcome = .ok .anone → rec.val = none) ∧
      (∀ tb, (env.evalOne st.scope kpi).outcome = .zeroDiv tb → rec.val = none) ∧
      (∀ tb, (env.evalOne st.scope kpi).outcome = .nameOrValue tb → rec.val = none) ∧
      (∀ tb, (env.evalOne st.scope kpi).outcome = .other tb → rec.val = none) := by
  intro rec hrec
  cases ho : (env.evalOne st.scope kpi).outcome with
  | ok v =>
      simp [processKpi, ho, lookup?] at hrec
      subst hrec
      by_cases hv : v = Value.anone
      · subst hv
        refine ⟨by simp, ?_, ?_, ?_, ?_, ?_⟩ <;> intros <;> simp_all
      · refine ⟨by simp [hv], ?_, ?_, ?_, ?_, ?_⟩ <;> intros <;> simp_all
  | zeroDiv tb =>
      simp [processKpi, ho, lookup?] at hrec
      subst hrec
      refine ⟨by simp, ?_, ?_, ?_, ?_, ?_⟩ <;> intros <;> simp_all
  | nameOrValue tb =>
      simp [processKpi, ho, lookup?] at hrec
      subst hrec
      refine ⟨by simp, ?_, ?_, ?_, ?_, ?_⟩ <;> intros <;> simp_all
  | other tb =>
      simp [processKpi, ho, lookup?] at hrec
      subst hrec
      refine ⟨by simp, ?_, ?_, ?_, ?_, ?_⟩ <;> intros <;> simp_all

/-- Witness for C10: `b = 2` evaluates to 2 and the record's `val` is
`some 2`, not the sentinel. -/
theorem c10_witness :
    ∃ rec, lookup? "b" (processKpi miniEnv ⟨[], [], []⟩ kpiB).res = some rec ∧
      rec.val ≠ some Value.anone ∧ rec.val = some (Value.num 2) := by
  refine ⟨_, rfl, ?_, ?_⟩
  · exact ((c10_val_never_sentinel miniEnv ⟨[], [], []⟩ kpiB) _ rfl).1
  · exact ((c10_val_never_sentinel miniEnv ⟨[], [], []⟩ kpiB) _ rfl).2.1
      (Value.num 2) rfl (by decide)

/-! ### The initial evaluation scope (lines 454-465)

`localdict` is seeded with `registry` (the ORM registry, `self.pool`),
the four no-data-aware aggregates, Python's `len`, and the
`AccountingNone` sentinel, then updated with the query results. -/

/-- The no-data-aware aggregate builtins named by the spec. -/
def aggregateNames : List String := ["sum", "min", "max", "avg"]

/-- The bindings seeded into `localdict` at lines 454-462. -/
def seededScope : Scope :=
  [("registry", Value.ext "registry"),
   ("sum", Value.ext "builtin_sum"),
   ("min", Value.ext "builtin_min"),
   ("max", Value.ext "builtin_max"),
   ("len", Value.ext "builtin_len"),
   ("avg", Value.ext "builtin_avg"),
   ("AccountingNone", Value.anone)]

/-- `localdict` after `localdict.update(self._fetch_queries(...))`
(line 464): the query results, keyed by query name, overriding the
seeded names on collision (hence listed first for our
first-match-wins lookup). -/
def initialLocaldict (queryResults : List (String × Value)) : Scope :=
  queryResults ++ seededScope

theorem processKpi_scope_mem [DecidableEq ε] (env : EvalEnv ε) (st : LoopState ε)
    (kpi : Kpi ε) (key : String)
    (hk : key ∈ keys (processKpi env st kpi).scope) :
    key ∈ keys (env.evalOne st.scope kpi).scope ∨ key = kpi.name := by
  unfold processKpi at hk
  cases ho : (env.evalOne st.scope kpi).outcome <;> simp only [ho] at hk
  case ok v =>
      rcases List.mem_cons.mp hk with h | h
      · exact Or.inr h
      · exact Or.inl h
  case zeroDiv tb => exact Or.inl hk
  case nameOrValue tb => exact Or.inl hk
  case other tb => exact Or.inl hk

theorem foldl_processKpi_scope_mem [DecidableEq ε] (env : EvalEnv ε)
    (S : List String)
    (hEval : ∀ sc k key, key ∈ keys (env.evalOne sc k).scope →
      key ∈ keys sc ∨ key ∈ S) :
    ∀ (queue : List (Kpi ε)) (st : LoopState ε) (key : String),
      key ∈ keys ((queue.foldl (processKpi env) st).scope) →
      key ∈ keys st.scope ∨ key ∈ queue.map Kpi.name ∨ key ∈ S := by
  intro queue
  induction queue with
  | nil => intro st key hk; exact Or.inl hk
  | cons k rest ih =>
      intro st key hk
      simp only [List.foldl_cons] at hk
      rcases ih (processKpi env st k) key hk with h | h | h
      · rcases processKpi_scope_mem env st k key h with h2 | h2
        · rcases hEval st.scope k key h2 with h3 | h3
          · exact Or.inl h3
          · exact Or.inr (Or.inr h3)
        · exact Or.inr (Or.inl (List.mem_cons.mpr (Or.inl h2)))
      · exact Or.inr (Or.inl (List.mem_cons.mpr (Or.inr h)))
      · exact Or.inr (Or.inr h)

theorem processKpi_retry_mem [DecidableEq ε] (env : EvalEnv ε) (st : LoopState ε)
    (kpi : Kpi ε) (k : Kpi ε) (hk : k ∈ (processKpi env st kpi).retry) :
    k ∈ st.retry ∨ k = kpi := by
  unfold processKpi at hk
  cases ho : (env.evalOne st.scope kpi).outcome <;> simp only [ho] at hk
  case ok v => exact Or.inl hk
  case zeroDiv tb => exact Or.inl hk
  case nameOrValue tb =>
      by_cases hmem : kpi ∈ st.retry
      · rw [if_pos hmem] at hk
        exact Or.inl hk
      · rw [if_neg hmem] at hk
        rcases List.mem_append.mp hk with h | h
        · exact Or.inl h
        · exact Or.inr (by simpa using h)
  case other tb => exact Or.inl hk

theorem foldl_processKpi_retry_mem [DecidableEq ε] (env : EvalEnv ε) :
    ∀ (queue : List (Kpi ε)) (st : LoopState ε) (k : Kpi ε),
      k ∈ (queue.foldl (processKpi env) st).retry → k ∈ st.retry ∨ k ∈ queue := by
  intro queue
  induction queue with
  | nil => intro st k hk; exact Or.inl hk
  | cons k0 rest ih =>
      intro st k hk
      simp only [List.foldl_cons] at hk
      rcases ih (processKpi env st k0) k hk with h | h
      · rcases processKpi_retry_mem env st k0 k h with h2 | h2
        · exact Or.inl h2
        · exact Or.inr (List.mem_cons.mpr (Or.inl h2))
      · exact Or.inr (List.mem_cons.mpr (Or.inr h))

theorem computeLoop_scope_mem [DecidableEq ε] (env : EvalEnv ε) (S : List String)
    (hEval : ∀ sc k key, key ∈ keys (env.evalOne sc k).scope →
      key ∈ keys sc ∨ key ∈ S) :
    ∀ (n : Nat) (queue : List (Kpi ε)), queue.length ≤ n →
      ∀ (scope : Scope) (res : ResMap) (key : String),
        key ∈ keys (computeLoop env scope res queue).1 →
        key ∈ keys scope ∨ key ∈ queue.map Kpi.name ∨ key ∈ S := by
  intro n
  induction n with
  | zero =>
      intro queue hlen scope res key hk
      have hq : queue = [] := List.length_eq_zero.mp (Nat.le_zero.mp hlen)
      subst hq
      rw [computeLoop,
        dif_pos (show (runPass env scope res []).retry.length = 0 from rfl)] at hk
      exact Or.inl hk
  | succ n ih =>
      intro queue hlen scope res key hk
      rw [computeLoop] at hk
      by_cases h1 : (runPass env scope res queue).retry.length = 0
      · rw [dif_pos h1] at hk
        exact foldl_processKpi_scope_mem env S hEval queue ⟨scope, res, []⟩ key hk
      · rw [dif_neg h1] at hk
        by_cases h2 : (runPass env scope res queue).retry.length = queue.length
        · rw [dif_pos h2] at hk
          exact foldl_processKpi_scope_mem env S hEval queue ⟨scope, res, []⟩ key hk
        · rw [dif_neg h2] at hk
          have hk2 : key ∈ keys (computeLoop env (runPass env scope res queue).scope
              (runPass env scope res queue).res (runPass env scope res queue).retry).1 := hk
          have hle := runPass_retry_le env scope res queue
          have hlt : (runPass env scope res queue).retry.length < queue.length :=
            lt_of_le_of_ne hle h2
          rcases ih (runPass env scope res queue).retry (by omega)
              (runPass env scope res queue).scope (runPass env scope res queue).res
              key hk2 with h | h | h
          · exact foldl_processKpi_scope_mem env S hEval queue ⟨scope, res, []⟩ key h
          · rcases List.mem_map.mp h with ⟨k2, hk2mem, hname⟩
            rcases foldl_processKpi_retry_mem env queue ⟨scope, res, []⟩ k2 hk2mem with
              habs | hqm
            · exact absurd habs (List.not_mem_nil k2)
            · exact Or.inr (Or.inl (List.mem_map.mpr ⟨k2, hqm, hname⟩))
          · exact Or.inr (Or.inr h)

/-- Counterexample to C3 as stated: with no queries declared and no KPI
resolved yet, the scope passed to `safe_eval` still binds `registry`
(the ORM registry, `self.pool`) — a name that is neither an aggregate
builtin, nor a query result, nor a KPI or sub-report value, and which is
ambient environment access. -/
theorem c3_counterexample :
    ¬ (∀ key ∈ keys (initialLocaldict []),
        key ∈ aggregateNames ∨ key ∈ keys ([] : List (String × Value)) ∨
        key ∈ ([] : List String)) := by
  intro h
  rcases h "registry" (by decide) with h2 | h2 | h2 <;> simp_all [aggregateNames, keys]

/-- C3 (amended): the scope passed to the sandboxed evaluator contains
exactly the seeded bindings of lines 454-462 — the no-data-aware
aggregates `sum`/`min`/`max`/`avg`, plus `len`, the `AccountingNone`
sentinel, and the ORM registry under the name `registry` (ambient
environment access, contradicting the claim as stated) — together with
the fetched query results keyed by query name, and it grows during
evaluation only by the names of resolved KPIs and by the names the
try-block body itself binds (the sub-report values, here the set `S`). -/
theorem c3_scope_bindings [DecidableEq ε] (env : EvalEnv ε) (S : List String)
    (hEval : ∀ sc k key, key ∈ keys (env.evalOne sc k).scope →
      key ∈ keys sc ∨ key ∈ S)
    (queryResults : List (String × Value)) (res : ResMap) (queue : List (Kpi ε)) :
    (∀ key ∈ keys (initialLocaldict queryResults),
       key ∈ keys queryResults ∨ key ∈ keys seededScope) ∧
    (∀ key ∈ keys (computeLoop env (initialLocaldict queryResults) res queue).1,
       key ∈ keys queryResults ∨ key ∈ keys seededScope ∨
       key ∈ queue.map Kpi.name ∨ key ∈ S) := by
  constructor
  · intro key hk
    simpa [initialLocaldict, keys] using hk
  · intro key hk
    rcases computeLoop_scope_mem env S hEval queue.length queue le_rfl
        (initialLocaldict queryResults) res key hk with h | h | h
    · rcases (by simpa [initialLocaldict, keys] using h :
          key ∈ keys queryResults ∨ key ∈ keys seededScope) with h2 | h2
      · exact Or.inl h2
      · exact Or.inr (Or.inl h2)
    · exact Or.inr (Or.inr (Or.inl h))
    · exact Or.inr (Or.inr (Or.inr h))

/-- Witness for C3 (amended) at a concrete template: the key
`registry` of the initial scope is accounted for by the seeded
bindings. -/
theorem c3_witness :
    "registry" ∈ keys [("q", Value.ext "queryresult")] ∨
      "registry" ∈ keys seededScope :=
  (c3_scope_bindings miniEnv [] (fun _ _ _ hk => Or.inl hk)
    [("q", Value.ext "queryresult")] [] demoQueue).1 "registry" (by decide)

/-! ### Rendering and comparison (`MisReportKpi.render_comparison`,
lines 164-222)

Numeric values are modelled as rationals.  `render_comparison` receives
the `val` fields of two result records (`None` or a number; the function
first turns `None` into `AccountingNone`), so its numeric operands are
`Option ℚ` with `none` for the absent sentinel.  Arithmetic involving
the sentinel comes from `accounting_none.py`, which is not among the
sources under review, and is modelled from the spec: absence propagates
through arithmetic, and the sentinel is falsy.  Locale number formatting
(`res.lang.format`) is an external collaborator and is a parameter
`fmt`. -/

/-- Python 2 `round` to 0 decimals: half away from zero. -/
def halfAwayRound (x : ℚ) : ℤ := if 0 ≤ x then ⌊x + 1/2⌋ else -⌊-x + 1/2⌋

/-- Python 2 `round(q, dp)`. -/
def roundPy (q : ℚ) (dp : ℕ) : ℚ := (halfAwayRound (q * 10 ^ dp) : ℚ) / 10 ^ dp

/-- Subtraction of comparison operands.  Modelled from the spec:
the absent sentinel propagates (`absence - x = absence`,
`x - absence = absence`). -/
def aSub : Option ℚ → Option ℚ → Option ℚ
  | some a, some b => some (a - b)
  | _, _ => none

/-- The normalization `if value and average_value: value = value /
float(average_value)` of lines 184-187 (both operands must be truthy:
non-absent and non-zero). -/
def normVal (v a : Option ℚ) : Option ℚ :=
  match v, a with
  | some q, some f => if q ≠ 0 ∧ f ≠ 0 then some (q / f) else some q
  | _, _ => v

/-- `MisReportKpi._render_num` (lines 207-222): divide by the divider
(`float(divider or 1)`), round, format through the locale formatter
`fmt`, wrap in prefix / narrow no-break space / no-break space /
divider label / suffix, and replace minus signs by non-breaking
hyphens.  The divider selection-label lookup is modelled by passing the
label alongside the numeric divider. -/
def renderNumStr (fmt : ℚ → String) (value divider : ℚ) (dp : ℕ)
    (pfx sfx dividerLabel : String) : String :=
  let v := roundPy (value / (if divider = 0 then 1 else divider)) dp
  let s := pfx ++ " " ++ fmt v ++ " " ++ dividerLabel ++ sfx
  String.mk (s.data.map (fun c => if c = '-' then '‑' else c))

/-- The KPI display kind (`type` field): numeric, percentage, or
string. -/
inductive KType where
  | knum
  | kpct
  | kstr
deriving DecidableEq, Repr

/-- The KPI comparison method (`compare_method` field). -/
inductive CompareMethod where
  | diff
  | pct
  | cnone
deriving DecidableEq, Repr

/-- `MisReportKpi.render_comparison` (lines 164-205).  `value` and
`baseValue` are the two KPI values (`none` for Python `None` or the
absent sentinel, which the function conflates at lines 171-174),
`avgValue`/`avgBase` the normalize factors. -/
def renderComparison (fmt : ℚ → String) (ktype : KType) (cmp : CompareMethod)
    (dp : ℕ) (divider : ℚ) (dividerLabel pfx sfx : String)
    (value baseValue avgValue avgBase : Option ℚ) : String :=
  match ktype with
  | .kpct =>
      match aSub value baseValue with
      | some d =>
          if d ≠ 0 ∧ roundPy d dp ≠ 0 then
            renderNumStr fmt d (1 / 100) dp "" "pp" ""
          else ""
      | none => ""
  | .knum =>
      let v := normVal value avgValue
      let b := normVal baseValue avgBase
      match cmp with
      | .diff =>
          match aSub v b with
          | some d =>
              if d ≠ 0 ∧ roundPy d dp ≠ 0 then
                renderNumStr fmt d divider dp pfx sfx dividerLabel
              else ""
          | none => ""
      | .pct =>
          match b with
          | some bq =>
              if bq ≠ 0 ∧ roundPy bq dp ≠ 0 then
                match aSub v (some bq) with
                | some dq =>
                    if dq / |bq| ≠ 0 ∧ roundPy (dq / |bq| * 100) dp ≠ 0 then
                      renderNumStr fmt (dq / |bq|) (1 / 100) dp "" "%" ""
                    else ""
                | none => ""
              else ""
          | none => ""
      | .cnone => ""
  | .kstr => ""

theorem normVal_none (a : Option ℚ) : normVal none a = none := by
  cases a <;> rfl

theorem aSub_none_left (b : Option ℚ) : aSub none b = none := by
  cases b <;> rfl

theorem aSub_none_right (a : Option ℚ) : aSub a none = none := by
  cases a <;> rfl

/-- Counterexample to C4 as stated: two values that are equal after
rounding to the configured precision can still render a non-empty
comparison.  At precision 0, value 1.4 and base 0.6 both round to 1,
yet the delta 0.8 rounds to 1 ≠ 0, so `render_comparison` (numeric
type, difference method, unit normalize factors) renders a non-empty
string. -/
theorem c4_counterexample :
    roundPy (7 / 5) 0 = roundPy (3 / 5) 0 ∧
    renderComparison (fun _ => "") .knum .diff 0 1 "" "" ""
      (some (7 / 5)) (some (3 / 5)) (some 1) (some 1) ≠ "" := by
  constructor
  · norm_num [roundPy, halfAwayRound]
  · have hsub : aSub (normVal (some (7 / 5)) (some 1)) (normVal (some (3 / 5)) (some 1)) =
        some (4 / 5) := by
      norm_num [normVal, aSub]
    have hr : roundPy (4 / 5) 0 = 1 := by norm_num [roundPy, halfAwayRound]
    simp only [renderComparison, hsub, hr]
    norm_num [renderNumStr]
    decide

/-- C4 (amended): `render_comparison` is a total function (it cannot
raise) and returns the empty string when the two operands are equal
(with equal normalize factors), when one operand is absent (`None` or
the no-data sentinel, both mapped to the sentinel at lines 171-174) —
in particular when one is absent and the other present — and when the
delta computed on the code path rounds to zero at the configured
precision (the plain delta for percentage-type KPIs and the
difference method; the relative delta times 100 for the
relative-percentage method).  Equality merely after rounding does not
guarantee an empty string (see the counterexample). -/
theorem c4_comparison_empty_cases (fmt : ℚ → String) (ktype : KType)
    (cmp : CompareMethod) (dp : ℕ) (divider : ℚ) (dl pfx sfx : String)
    (value baseValue avgValue avgBase : Option ℚ) :
    (value = baseValue → avgValue = avgBase →
      renderComparison fmt ktype cmp dp divider dl pfx sfx
        value baseValue avgValue avgBase = "") ∧
    ((value = none ∨ baseValue = none) →
      renderComparison fmt ktype cmp dp divider dl pfx sfx
        value baseValue avgValue avgBase = "") ∧
    (∀ d, ktype = .kpct → aSub value baseValue = some d → roundPy d dp = 0 →
      renderComparison fmt ktype cmp dp divider dl pfx sfx
        value baseValue avgValue avgBase = "") ∧
    (∀ d, ktype = .knum → cmp = .diff →
      aSub (normVal value avgValue) (normVal baseValue avgBase) = some d →
      roundPy d dp = 0 →
      renderComparison fmt ktype cmp dp divider dl pfx sfx
        value baseValue avgValue avgBase = "") ∧
    (∀ b d, ktype = .knum → cmp = .pct → normVal baseValue avgBase = some b →
      aSub (normVal value avgValue) (some b) = some d →
      roundPy (d / |b| * 100) dp = 0 →
      renderComparison fmt ktype cmp dp divider dl pfx sfx
        value baseValue avgValue avgBase = "") := by
  refine ⟨?_, ?_, ?_, ?_, ?_⟩
  · intro h1 h2
    subst h1
    subst h2
    cases ktype with
    | kpct =>
        cases value with
        | none => simp [renderComparison, aSub_none_left]
        | some q => simp [renderComparison, aSub]
    | knum =>
        cases cmp with
        | diff =>
            rcases hnv : normVal value avgValue with _ | q <;>
              simp [renderComparison, hnv, aSub_none_left, aSub]
        | pct =>
            rcases hnv : normVal value avgValue with _ | q
            · simp [renderComparison, hnv]
            · simp only [renderComparison, hnv]
              split
              · simp [aSub]
              · rfl
        | cnone => rfl
    | kstr => rfl
  · intro h
    rcases h with h | h <;> subst h
    · cases ktype with
      | kpct => simp [renderComparison, aSub_none_left]
      | knum =>
          cases cmp with
          | diff =>
              simp [renderComparison, normVal_none, aSub_none_left]
          | pct =>
              rcases hb : normVal baseValue avgBase with _ | bq
              · simp [renderComparison, hb]
              · simp only [renderComparison, hb]
                split
                · simp [normVal_none, aSub_none_left]
                · rfl
          | cnone => rfl
      | kstr => rfl
    · cases ktype with
      | kpct => simp [renderComparison, aSub_none_right]
      | knum =>
          cases cmp with
          | diff =>
              simp [renderComparison, normVal_none, aSub_none_right]
          | pct =>
              simp [renderComparison, normVal_none]
          | cnone => rfl
      | kstr => rfl
  · intro d hk hsub hround
    subst hk
    simp [renderComparison, hsub, hround]
  · intro d hk hc hsub hround
    subst hk
    subst hc
    simp [renderComparison, hsub, hround]
  · intro b d hk hc hb hsub hround
    subst hk
    subst hc
    simp only [renderComparison, hb]
    split
    · simp [hsub, hround]
    · rfl

/-- Witness for C4 (amended): equal operands and an absent operand at
concrete inputs yield the empty comparison string. -/
theorem c4_witness :
    renderComparison (fun _ => "") .knum .diff 2 1 "" "" ""
      (some 5) (some 5) (some 1) (some 1) = "" ∧
    renderComparison (fun _ => "") .kpct .diff 2 1 "" "" ""
      none (some 3) (some 1) (some 1) = "" := by
  constructor
  · exact (c4_comparison_empty_cases (fun _ => "") .knum .diff 2 1 "" "" ""
      (some 5) (some 5) (some 1) (some 1)).1 rfl rfl
  · exact (c4_comparison_empty_cases (fun _ => "") .kpct .diff 2 1 "" "" ""
      none (some 3) (some 1) (some 1)).2.1 (Or.inl rfl)

/-! ### Period resolution (`MisReportInstancePeriod._compute_dates`,
lines 748-793) and the assembler's skipping of invalid periods
(`MisReportInstance._compute`, lines 1190-1194 and 1227-1229)

Dates are modelled as day numbers (days since 1970-01-01);
`daysFromCivil` converts a Gregorian date to its day number, and
`pyWeekday` is Python's `date.weekday()` (Monday = 0; day 0,
1970-01-01, was a Thursday, hence the +3). -/

/-- Day number (days since 1970-01-01) of the civil date y-m-d. -/
def daysFromCivil (y m d : Int) : Int :=
  let y2 := if m ≤ 2 then y - 1 else y
  let era := (if 0 ≤ y2 then y2 else y2 - 399) / 400
  let yoe := y2 - era * 400
  let mp := (m + 9) % 12
  let doy := (153 * mp + 2) / 5 + d - 1
  let doe := yoe * 365 + yoe / 4 - yoe / 100 + doy
  era * 146097 + doe - 719468

/-- Python `date.weekday()`: Monday = 0 … Sunday = 6. -/
def pyWeekday (n : Int) : Int := (n + 3) % 7

/-- `d - datetime.timedelta(d.weekday())`: the Monday of the day's
week. -/
def mondayOf (n : Int) : Int := n - pyWeekday n

/-- An `account.period` row as `_compute_dates` sees it: the ledger
periods of the company, non-special, ordered by `date_start`. -/
structure FiscalPeriod where
  pid : Nat
  dateStart : Int
  dateStop : Int
deriving DecidableEq, Repr

/-- Granularity of a period instance (`type` field: day, week, fiscal
period). -/
inductive PType where
  | d
  | w
  | fp
deriving DecidableEq, Repr

/-- The computed fields of `mis.report.instance.period`: all are reset
to `False` first (lines 751-755), so an early exit leaves the instance
invalid with no dates. -/
structure DatesResult where
  date_from : Option Int
  date_to : Option Int
  period_from : Option Nat
  period_to : Option Nat
  valid : Bool
deriving DecidableEq, Repr

/-- The initial / invalid state of the computed fields. -/
def invalidDates : DatesResult :=
  { date_from := none, date_to := none, period_from := none,
    period_to := none, valid := false }

/-- `MisReportInstancePeriod._compute_dates` (lines 748-793).  For
fiscal-period granularity, `allPeriods` is the chronologically ordered
period list of the company; the current period is the first one whose
range contains the pivot date, the index is shifted by `offset`, and
`duration` periods are spanned; an out-of-range shifted index leaves
the instance invalid. -/
def computeDates (ptype : PType) (pivot : Int) (offset duration : Int)
    (allPeriods : List FiscalPeriod) : DatesResult :=
  match ptype with
  | .d =>
      { date_from := some (pivot + offset)
        date_to := some (pivot + offset + duration - 1)
        period_from := none, period_to := none, valid := true }
  | .w =>
      let dateFrom := mondayOf pivot + 7 * offset
      { date_from := some dateFrom
        date_to := some (dateFrom + 7 * duration - 1)
        period_from := none, period_to := none, valid := true }
  | .fp =>
      match allPeriods.findIdx?
          (fun p => decide (p.dateStart ≤ pivot) && decide (pivot ≤ p.dateStop)) with
      | none => invalidDates
      | some i =>
          let p : Int := (i : Int) + offset
          if 0 ≤ p ∧ p + duration ≤ (allPeriods.length : Int) then
            let slice := (allPeriods.drop p.toNat).take duration.toNat
            match slice.head?, slice.getLast? with
            | some a, some b =>
                { date_from := some a.dateStart, date_to := some b.dateStop,
                  period_from := some a.pid, period_to := some b.pid, valid := true }
            | _, _ => invalidDates
          else invalidDates

/-- C8: day granularity gives `date_from = pivot + offset` and
`date_to = date_from + duration - 1`; week granularity anchors on the
Monday of the pivot's week shifted by whole weeks (the computed
`date_from` is always a Monday) and spans `7 * duration` days; and the
two concrete examples: day period pivot 2024-03-15, offset -1,
duration 1 gives 2024-03-14 for both bounds, and week period pivot
2024-03-15 (a Friday), offset 0, duration 1 gives 2024-03-11 through
2024-03-17. -/
theorem c8_day_week_dates :
    (∀ (pivot offset duration : Int) (ps : List FiscalPeriod),
      (computeDates .d pivot offset duration ps).date_from = some (pivot + offset) ∧
      (computeDates .d pivot offset duration ps).date_to =
        some (pivot + offset + duration - 1)) ∧
    (∀ (pivot offset duration : Int) (ps : List FiscalPeriod),
      (computeDates .w pivot offset duration ps).date_from =
        some (mondayOf pivot + 7 * offset) ∧
      pyWeekday (mondayOf pivot + 7 * offset) = 0 ∧
      (computeDates .w pivot offset duration ps).date_to =
        some (mondayOf pivot + 7 * offset + 7 * duration - 1)) ∧
    ((computeDates .d (daysFromCivil 2024 3 15) (-1) 1 []).date_from =
        some (daysFromCivil 2024 3 14) ∧
     (computeDates .d (daysFromCivil 2024 3 15) (-1) 1 []).date_to =
        some (daysFromCivil 2024 3 14)) ∧
    ((computeDates .w (daysFromCivil 2024 3 15) 0 1 []).date_from =
        some (daysFromCivil 2024 3 11) ∧
     (computeDates .w (daysFromCivil 2024 3 15) 0 1 []).date_to =
        some (daysFromCivil 2024 3 17)) := by
  refine ⟨fun pivot offset duration ps => ⟨rfl, rfl⟩,
    fun pivot offset duration ps => ⟨rfl, ?_, rfl⟩, by decide, by decide⟩
  simp only [mondayOf, pyWeekday]
  omega

/-- A period instance as the assembler sees it: its id, its validity
flag, and the ids of the instances it designates as comparison
columns. -/
structure PInst where
  pid : Nat
  valid : Bool
  comparisons : List Nat
deriving DecidableEq, Repr

/-- The assembler's first loop (lines 1190-1194): compute KPI values
for each period, skipping invalid ones (`if not period.valid:
continue`). -/
def kpiValuesByPeriod (f : PInst → α) (ps : List PInst) : List (Nat × α) :=
  ps.foldl (fun acc p => if p.valid then acc ++ [(p.pid, f p)] else acc) []

/-- The assembler's second loop (lines 1227-1271), restricted to the
column headers it emits: one column per valid period (invalid ones are
skipped by the same guard), plus one comparison column per designated
comparison instance that has computed KPI values. -/
def headerCols (ps : List PInst) : List Nat :=
  ps.foldl
    (fun acc p =>
      if p.valid then
        acc ++ ([p.pid] ++ p.comparisons.filter
          (fun c => (lookup? c (kpiValuesByPeriod (fun _ => Unit.unit) ps)).isSome))
      else acc) []

theorem foldl_valid_eq (g : PInst → List α) :
    ∀ (ps : List PInst) (acc : List α),
      ps.foldl (fun a p => if p.valid then a ++ g p else a) acc =
      acc ++ (ps.filter (fun p => p.valid)).flatMap g := by
  intro ps
  induction ps with
  | nil => intro acc; simp
  | cons p rest ih =>
      intro acc
      by_cases hv : p.valid = true
      · simp [hv, ih, List.filter_cons, List.append_assoc]
      · simp [List.foldl_cons, if_neg (by simp [hv] : ¬(p.valid = true)), ih,
          List.filter_cons, hv]

theorem lookup?_isSome_mem [DecidableEq κ] (k : κ) :
    ∀ (l : List (κ × α)), (lookup? k l).isSome = true → k ∈ l.map Prod.fst := by
  intro l
  induction l with
  | nil => intro h; simp [lookup?] at h
  | cons kv rest ih =>
      intro h
      rcases kv with ⟨k2, v⟩
      by_cases hk : k2 = k
      · subst hk
        exact List.mem_cons.mpr (Or.inl rfl)
      · rw [lookup?, if_neg hk] at h
        exact List.mem_cons.mpr (Or.inr (ih h))

theorem not_mem_kpiValues (f : PInst → α) (ps : List PInst) (p : PInst)
    (hnodup : (ps.map PInst.pid).Nodup) (hmem : p ∈ ps) (hval : p.valid = false) :
    p.pid ∉ (kpiValuesByPeriod f ps).map Prod.fst := by
  intro habs
  rw [kpiValuesByPeriod, foldl_valid_eq] at habs
  simp only [List.nil_append, List.map_flatMap] at habs
  rcases List.mem_flatMap.mp habs with ⟨q, hq, hpid⟩
  rcases List.mem_filter.mp hq with ⟨hqmem, hqval⟩
  simp only [List.map_cons, List.map_nil, List.mem_singleton] at hpid
  have hqp : q = p := List.inj_on_of_nodup_map hnodup hqmem hmem hpid.symm
  rw [hqp] at hqval
  rw [hval] at hqval
  exact absurd hqval (by simp)

/-- C9: a fiscal-period instance whose shifted period index is out of
range (shifted index < 0 or shifted index + duration > number of
periods) is invalid and carries no dates and no period bounds; and the
assembler skips invalid instances entirely: they get no KPI values, no
period column, and no comparison column (their dates are never
defaulted — the computed fields stay `False`). -/
theorem c9_invalid_period_skipped (f : PInst → α) :
    (∀ (ps : List FiscalPeriod) (pivot offset duration : Int) (i : Nat),
      ps.findIdx?
          (fun p => decide (p.dateStart ≤ pivot) && decide (pivot ≤ p.dateStop)) =
        some i →
      ((i : Int) + offset < 0 ∨ (ps.length : Int) < (i : Int) + offset + duration) →
      (computeDates .fp pivot offset duration ps).valid = false ∧
      (computeDates .fp pivot offset duration ps).date_from = none ∧
      (computeDates .fp pivot offset duration ps).date_to = none ∧
      (computeDates .fp pivot offset duration ps).period_from = none ∧
      (computeDates .fp pivot offset duration ps).period_to = none) ∧
    (∀ (ps : List PInst) (p : PInst),
      (ps.map PInst.pid).Nodup → p ∈ ps → p.valid = false →
      p.pid ∉ (kpiValuesByPeriod f ps).map Prod.fst ∧
      p.pid ∉ headerCols ps) := by
  constructor
  · intro ps pivot offset duration i hfind hout
    simp only [computeDates, hfind]
    rw [if_neg (by omega :
      ¬(0 ≤ (i : Int) + offset ∧ (i : Int) + offset + duration ≤ (ps.length : Int)))]
    exact ⟨rfl, rfl, rfl, rfl, rfl⟩
  · intro ps p hnodup hmem hval
    refine ⟨not_mem_kpiValues f ps p hnodup hmem hval, ?_⟩
    intro habs
    rw [headerCols, foldl_valid_eq] at habs
    simp only [List.nil_append] at habs
    rcases List.mem_flatMap.mp habs with ⟨q, hq, hpid⟩
    rcases List.mem_filter.mp hq with ⟨hqmem, hqval⟩
    rcases List.mem_append.mp hpid with h | h
    · have hqp : q = p := List.inj_on_of_nodup_map hnodup hqmem hmem
        (by simpa using (List.mem_singleton.mp h).symm)
      rw [hqp, hval] at hqval
      exact absurd hqval (by simp)
    · rcases List.mem_filter.mp h with ⟨_, hsome⟩
      exact not_mem_kpiValues (fun _ => Unit.unit) ps p hnodup hmem hval
        (lookup?_isSome_mem p.pid _ (by simpa using hsome))

/-- Witness for C9: a one-period list whose only period contains the
pivot, with an offset shooting past the end, is invalid; and an
invalid instance in a two-instance list gets no values and no
column. -/
theorem c9_witness :
    ((computeDates .fp 10 5 1 [⟨1, 0, 20⟩]).valid = false ∧
     (computeDates .fp 10 5 1 [⟨1, 0, 20⟩]).date_from = none ∧
     (computeDates .fp 10 5 1 [⟨1, 0, 20⟩]).date_to = none ∧
     (computeDates .fp 10 5 1 [⟨1, 0, 20⟩]).period_from = none ∧
     (computeDates .fp 10 5 1 [⟨1, 0, 20⟩]).period_to = none) ∧
    ((2 : Nat) ∉ (kpiValuesByPeriod (fun p => p.pid) [⟨1, true, []⟩, ⟨2, false, []⟩]).map
        Prod.fst ∧
     (2 : Nat) ∉ headerCols [⟨1, true, []⟩, ⟨2, false, []⟩]) := by
  constructor
  · exact (c9_invalid_period_skipped (fun p => p.pid)).1 [⟨1, 0, 20⟩] 10 5 1 0
      (by decide) (by norm_num)
  · exact (c9_invalid_period_skipped (fun p => p.pid)).2
      [⟨1, true, []⟩, ⟨2, false, []⟩] ⟨2, false, []⟩ (by decide) (by decide) rfl

/-! ### The sub-report block (lines 487-564)

`_sub_expressions` tokenizes the substituted expression
(`re.findall` of word/dot runs); we model the expression as a token
list.  For each dotted token `code.kpi`, the source looks the report up
by code, checks the KPI name, rewrites every dotted identifier pair of
the whole expression (`re.sub` with pattern `([a-zA-Z]\w+)\.([a-zA-Z]\w+)`,
so both sides need at least two characters starting with a letter),
records the sub-report id, and — unless `inherit_subreport_vals`
already has a non-empty entry for the code (the check is `if not
inherit_subreport_vals.get(code)`, i.e. dict truthiness, so an empty
entry does not count as a hit) — recursively computes the sub-report,
filling the memo and `localdict` with each sub-report KPI's value for
the column whose `period_id` matches the current one.  The memo lives
for one `MisReport._compute` call, i.e. for one fixed period id. -/

/-- A token of the formula text: a plain identifier, a dotted
cross-report reference, or anything else (numbers, operators). -/
inductive Tok where
  | ident (s : String)
  | dotted (a b : String)
  | other (s : String)
deriving DecidableEq, Repr

/-- A `\w` character. -/
def isWordChar (c : Char) : Bool := c.isAlphanum || c = '_'

/-- Whether a string matches `[a-zA-Z]\w+` entirely (at least two
characters, leading letter). -/
def pyIdentTok (s : String) : Bool :=
  match s.data with
  | [] => false
  | c :: rest => c.isAlpha && !rest.isEmpty && rest.all isWordChar

/-- One application of the `re.sub` rewrite to a token: a dotted pair
of identifiers becomes the underscored identifier; anything else is
untouched. -/
def rewriteTok : Tok → Tok
  | .dotted a b =>
      if pyIdentTok a && pyIdentTok b then .ident (a ++ "_" ++ b) else .dotted a b
  | t => t

/-- A sub-report as the recursion sees it: its id, code, declared KPI
names, and the content rows the recursive
`report_instance_id._compute` produces — one row per KPI
(`kpi_unique_name`), with one column per period (`period_id`, `val`). -/
structure SubReport where
  rid : Nat
  code : String
  kpiNames : List String
  content : List (String × List (Nat × Option Value))
deriving DecidableEq, Repr

/-- The selection of lines 547-552: the first column whose `period_id`
matches, else the empty dict, whose `.get` then yields `None`. -/
def colAt (pid : Nat) (cols : List (Nat × Option Value)) : Option Value :=
  match cols.find? (fun c => decide (c.1 = pid)) with
  | some c => c.2
  | none => none

/-- The values the recursive evaluation of a sub-report contributes for
the current period id: one `(kpi_unique_name, val)` pair per content
row.  This is the expensive recursive computation the memo avoids. -/
def computeSubVals (r : SubReport) (pid : Nat) : List (String × Option Value) :=
  r.content.map (fun row => (row.1, colAt pid row.2))

/-- A Python value retrieved with `.get('val')`: `None` when absent. -/
def toPy : Option Value → Value
  | none => .pynone
  | some v => v

/-- `inherit_active_subreport_ids |= inherit_report_id`: recordset
union keeps ids unique. -/
def insertUnique (x : Nat) (l : List Nat) : List Nat :=
  if x ∈ l then l else l ++ [x]

/-- State threaded through the sub-expression loop: the (rewritten)
expression, `localdict`, `inherit_subreport_vals`,
`inherit_active_subreport_ids`, and the trace of codes whose sub-report
was recursively computed. -/
structure SubState where
  expr : List Tok
  scope : Scope
  memo : List (String × List (String × Option Value))
  active : List Nat
  computed : List String
deriving Repr

/-- The memo check `inherit_subreport_vals.get(code)` used in boolean
context (line 521): a hit requires a present and non-empty entry. -/
def memoHit (memo : List (String × List (String × Option Value)))
    (code : String) : Bool :=
  match lookup? code memo with
  | some vals => !vals.isEmpty
  | none => false

/-- Processing of one sub-expression (the body of the loop at lines
492-564): skip non-dotted tokens, look the report up by code, check the
KPI name, rewrite the whole expression and record the dependency, then
(on a memo miss) recursively compute the sub-report and fill the memo
and the scope. -/
def processSubTok (reports : List SubReport) (pid : Nat) (st : SubState)
    (t : Tok) : SubState :=
  match t with
  | .dotted code kname =>
      match reports.find? (fun r => decide (r.code = code)) with
      | none => st
      | some r =>
          if kname ∈ r.kpiNames then
            let st1 := { st with expr := st.expr.map rewriteTok,
                                 active := insertUnique r.rid st.active }
            if memoHit st1.memo code then st1
            else
              let vals := computeSubVals r pid
              { st1 with
                memo := (code, vals) :: st1.memo
                computed := st1.computed ++ [code]
                scope := vals.foldl
                  (fun sc nv => (code ++ "_" ++ nv.1, toPy nv.2) :: sc) st1.scope }
          else st
  | _ => st

/-- The sub-expression loop over the token list. -/
def processSubToks (reports : List SubReport) (pid : Nat) (st : SubState)
    (ts : List Tok) : SubState :=
  ts.foldl (processSubTok reports pid) st

theorem foldl_cons_eq (e : β → γ) :
    ∀ (l : List β) (init : List γ),
      l.foldl (fun sc nv => e nv :: sc) init = (l.map e).reverse ++ init := by
  intro l
  induction l with
  | nil => intro init; simp
  | cons x rest ih =>
      intro init
      simp [List.foldl_cons, ih]

theorem processSubTok_ident (reports : List SubReport) (pid : Nat)
    (st : SubState) (s : String) :
    processSubTok reports pid st (.ident s) = st := rfl

theorem processSubTok_other (reports : List SubReport) (pid : Nat)
    (st : SubState) (s : String) :
    processSubTok reports pid st (.other s) = st := rfl

theorem processSubTok_nofind (reports : List SubReport) (pid : Nat)
    (st : SubState) (code kname : String)
    (hfind : reports.find? (fun r2 => decide (r2.code = code)) = none) :
    processSubTok reports pid st (.dotted code kname) = st := by
  simp [processSubTok, hfind]

theorem processSubTok_noname (reports : List SubReport) (pid : Nat)
    (st : SubState) (code kname : String) (r : SubReport)
    (hfind : reports.find? (fun r2 => decide (r2.code = code)) = some r)
    (hk : kname ∉ r.kpiNames) :
    processSubTok reports pid st (.dotted code kname) = st := by
  simp [processSubTok, hfind, hk]

theorem processSubTok_hit (reports : List SubReport) (pid : Nat)
    (st : SubState) (code kname : String) (r : SubReport)
    (hfind : reports.find? (fun r2 => decide (r2.code = code)) = some r)
    (hk : kname ∈ r.kpiNames) (hm : memoHit st.memo code = true) :
    processSubTok reports pid st (.dotted code kname) =
      { st with expr := st.expr.map rewriteTok,
                active := insertUnique r.rid st.active } := by
  simp [processSubTok, hfind, hk, hm]

theorem processSubTok_miss (reports : List SubReport) (pid : Nat)
    (st : SubState) (code kname : String) (r : SubReport)
    (hfind : reports.find? (fun r2 => decide (r2.code = code)) = some r)
    (hk : kname ∈ r.kpiNames) (hm : memoHit st.memo code = false) :
    processSubTok reports pid st (.dotted code kname) =
      { expr := st.expr.map rewriteTok
        scope := (computeSubVals r pid).foldl
          (fun sc nv => (code ++ "_" ++ nv.1, toPy nv.2) :: sc) st.scope
        memo := (code, computeSubVals r pid) :: st.memo
        active := insertUnique r.rid st.active
        computed := st.computed ++ [code] } := by
  simp [processSubTok, hfind, hk, hm]

theorem memoHit_cons (code c : String)
    (vals : List (String × Option Value))
    (memo : List (String × List (String × Option Value))) :
    memoHit ((code, vals) :: memo) c =
      if code = c then !vals.isEmpty else memoHit memo c := by
  unfold memoHit
  rw [lookup?]
  by_cases hcc : code = c
  · rw [if_pos hcc, if_pos hcc]
  · rw [if_neg hcc, if_neg hcc]

theorem processSubTok_inv (reports : List SubReport) (pid : Nat)
    (hcontent : ∀ r ∈ reports, r.content ≠ []) (st : SubState) (t : Tok)
    (hI : st.computed.Nodup ∧ ∀ c ∈ st.computed, memoHit st.memo c = true) :
    (processSubTok reports pid st t).computed.Nodup ∧
    ∀ c ∈ (processSubTok reports pid st t).computed,
      memoHit (processSubTok reports pid st t).memo c = true := by
  rcases t with s | ⟨code, kname⟩ | s
  · rw [processSubTok_ident]
    exact hI
  · cases hfind : reports.find? (fun r2 => decide (r2.code = code)) with
    | none =>
        rw [processSubTok_nofind reports pid st code kname hfind]
        exact hI
    | some r =>
        by_cases hk : kname ∈ r.kpiNames
        · by_cases hm : memoHit st.memo code = true
          · rw [processSubTok_hit reports pid st code kname r hfind hk hm]
            exact hI
          · rw [processSubTok_miss reports pid st code kname r hfind hk
              (by simpa using hm)]
            have hrmem : r ∈ reports := List.mem_of_find?_eq_some hfind
            have hvals : ((computeSubVals r pid).isEmpty = false) := by
              rcases hc : r.content with _ | ⟨row, rest⟩
              · exact absurd hc (hcontent r hrmem)
              · simp [computeSubVals, hc]
            have hcode_notin : code ∉ st.computed := fun hc => hm (hI.2 code hc)
            constructor
            · simp only [List.nodup_append, List.nodup_cons]
              refine ⟨hI.1, by simp, ?_⟩
              intro c hc hc2
              rw [List.mem_singleton.mp hc2] at hc
              exact hcode_notin hc
            · intro c hc
              rw [memoHit_cons]
              rcases List.mem_append.mp hc with hc | hc
              · by_cases hcc : code = c
                · rw [if_pos hcc]
                  simp [hvals]
                · rw [if_neg hcc]
                  exact hI.2 c hc
              · rw [List.mem_singleton.mp hc, if_pos rfl]
                simp [hvals]
        · rw [processSubTok_noname reports pid st code kname r hfind hk]
          exact hI
  · rw [processSubTok_other]
    exact hI

theorem processSubToks_inv (reports : List SubReport) (pid : Nat)
    (hcontent : ∀ r ∈ reports, r.content ≠ []) :
    ∀ (ts : List Tok) (st : SubState),
      (st.computed.Nodup ∧ ∀ c ∈ st.computed, memoHit st.memo c = true) →
      (processSubToks reports pid st ts).computed.Nodup := by
  intro ts
  induction ts with
  | nil => intro st hI; exact hI.1
  | cons t rest ih =>
      intro st hI
      exact ih (processSubTok reports pid st t)
        (processSubTok_inv reports pid hcontent st t hI)

/-- A sub-report whose recursive computation yields no content rows
(all of its KPIs invisible or column-title, so the assembler filters
every row out): the memo entry created for it stays the empty dict. -/
def repEmpty : SubReport := ⟨9, "emp", ["yy"], []⟩

/-- Initial sub-expression state referencing `emp.yy` twice. -/
def subStEmpty : SubState :=
  ⟨[.dotted "emp" "yy", .dotted "emp" "yy"], [], [], [], []⟩

/-- A sub-report with a one-character code declaring a one-character
KPI name, both outside the rewrite regex `([a-zA-Z]\w+)\.([a-zA-Z]\w+)`
of line 511. -/
def repA : SubReport := ⟨3, "a", ["b"], [("b", [(5, some (.num 1))])]⟩

/-- Initial sub-expression state referencing `a.b`. -/
def subStA : SubState := ⟨[.dotted "a" "b"], [], [], [], []⟩

/-- Counterexample to C7 as stated.  First, "at most once per report
code" fails when the referenced sub-report's computed content is
empty: the memo check at line 521 (`if not
inherit_subreport_vals.get(code)`) is dict truthiness, the entry
created for an empty content stays `{}` and never counts as a hit, so
two references to `emp.yy` trigger two recursive computations of the
same code.  Second, the rewrite of line 511 requires at least two
characters on each side of the dot, so the covered reference `a.b`
(existing report code `a`, declared KPI `b`) is left un-rewritten in
the expression. -/
theorem c7_counterexample :
    (processSubToks [repEmpty] 5 subStEmpty
        [.dotted "emp" "yy", .dotted "emp" "yy"]).computed = ["emp", "emp"] ∧
    ¬ (processSubToks [repEmpty] 5 subStEmpty
        [.dotted "emp" "yy", .dotted "emp" "yy"]).computed.Nodup ∧
    (processSubTok [repA] 5 subStA (.dotted "a" "b")).expr = [.dotted "a" "b"] := by
  refine ⟨by decide, by decide, by decide⟩

/-- C7 (amended): within a single `MisReport._compute` call — where
`inherit_subreport_vals` lives and the period id is fixed, so the memo
is effectively keyed by (report code, period id) — and provided every
referenced sub-report's recursive computation yields at least one
content row (the memo check at line 521 is dict truthiness, so the
empty entry of a content-less sub-report never counts as a hit and
such a sub-report is re-evaluated on every reference), each referenced
sub-report is recursively evaluated at most once per report code; on
the first reference its values are memoized under its code and each
computed content row's value for the current period id is bound in the
scope under `<report_code>_<kpi_unique_name>` (a referenced KPI
without a content row is not bound); on a repeated reference nothing
is recomputed and the scope is unchanged; and a dotted reference whose
two sides each have at least two characters starting with a letter
(the regex of line 511) is rewritten to `<report_code>_<kpi_name>`. -/
theorem c7_subreport_memoization (reports : List SubReport) (pid : Nat)
    (hcontent : ∀ r ∈ reports, r.content ≠ []) :
    (∀ (ts : List Tok) (st : SubState), st.computed = [] →
      (processSubToks reports pid st ts).computed.Nodup) ∧
    (∀ (st : SubState) (code kname : String) (r : SubReport),
      reports.find? (fun r2 => decide (r2.code = code)) = some r →
      kname ∈ r.kpiNames →
      memoHit st.memo code = false →
      (processSubTok reports pid st (.dotted code kname)).computed =
        st.computed ++ [code] ∧
      lookup? code (processSubTok reports pid st (.dotted code kname)).memo =
        some (computeSubVals r pid) ∧
      (∀ nv ∈ computeSubVals r pid,
        (code ++ "_" ++ nv.1, toPy nv.2) ∈
          (processSubTok reports pid st (.dotted code kname)).scope)) ∧
    (∀ (st : SubState) (code kname : String) (r : SubReport),
      reports.find? (fun r2 => decide (r2.code = code)) = some r →
      kname ∈ r.kpiNames →
      memoHit st.memo code = true →
      (processSubTok reports pid st (.dotted code kname)).computed = st.computed ∧
      (processSubTok reports pid st (.dotted code kname)).scope = st.scope ∧
      (processSubTok reports pid st (.dotted code kname)).memo = st.memo) ∧
    (∀ code kname : String, pyIdentTok code = true → pyIdentTok kname = true →
      rewriteTok (.dotted code kname) = .ident (code ++ "_" ++ kname)) ∧
    (∀ (st : SubState) (code kname : String) (r : SubReport),
      reports.find? (fun r2 => decide (r2.code = code)) = some r →
      kname ∈ r.kpiNames →
      (processSubTok reports pid st (.dotted code kname)).expr =
        st.expr.map rewriteTok) := by
  refine ⟨?_, ?_, ?_, ?_, ?_⟩
  · intro ts st hc
    refine processSubToks_inv reports pid hcontent ts st ⟨by simp [hc], ?_⟩
    intro c hcc
    rw [hc] at hcc
    exact absurd hcc (List.not_mem_nil c)
  · intro st code kname r hfind hk hm
    rw [processSubTok_miss reports pid st code kname r hfind hk hm]
    refine ⟨rfl, ?_, ?_⟩
    · rw [lookup?, if_pos rfl]
    · intro nv hnv
      rw [foldl_cons_eq]
      refine List.mem_append.mpr (Or.inl ?_)
      rw [List.mem_reverse]
      exact List.mem_map.mpr ⟨nv, hnv, rfl⟩
  · intro st code kname r hfind hk hm
    rw [processSubTok_hit reports pid st code kname r hfind hk hm]
    exact ⟨rfl, rfl, rfl⟩
  · intro code kname h1 h2
    simp [rewriteTok, h1, h2]
  · intro st code kname r hfind hk
    by_cases hm : memoHit st.memo code = true
    · rw [processSubTok_hit reports pid st code kname r hfind hk hm]
    · rw [processSubTok_miss reports pid st code kname r hfind hk
        (by simpa using hm)]

/-- The sub-report of the C7 witness: id 7, code `rep`, one KPI `xx`
whose value for period 5 is 2. -/
def subRep : SubReport := ⟨7, "rep", ["xx"], [("xx", [(5, some (.num 2))])]⟩

/-- The initial sub-expression state of the C7 witness: the expression
is the single dotted token `rep.xx`, everything else empty. -/
def subSt0 : SubState := ⟨[.dotted "rep" "xx"], [], [], [], []⟩

/-- Witness for C7 at a concrete sub-report reference. -/
theorem c7_witness :
    (processSubToks [subRep] 5 subSt0 [.dotted "rep" "xx"]).computed.Nodup ∧
    (processSubTok [subRep] 5 subSt0 (.dotted "rep" "xx")).computed = ["rep"] ∧
    ("rep" ++ "_" ++ "xx", toPy (some (Value.num 2))) ∈
      (processSubTok [subRep] 5 subSt0 (.dotted "rep" "xx")).scope ∧
    rewriteTok (.dotted "rep" "xx") = .ident ("rep" ++ "_" ++ "xx") := by
  have h := c7_subreport_memoization [subRep] 5 (by decide)
  refine ⟨h.1 [.dotted "rep" "xx"] subSt0 rfl, ?_, ?_, ?_⟩
  · exact (h.2.1 subSt0 "rep" "xx" subRep rfl (by decide) rfl).1
  · exact (h.2.1 subSt0 "rep" "xx" subRep rfl (by decide) rfl).2.2
      ("xx", some (Value.num 2)) (by decide)
  · exact h.2.2.2.1 "rep" "xx" (by decide) (by decide)

end MisBuilder
